import Mathlib

/-!
Verification of the trafexia MITM proxy core: a shallow embedding of
`TrafficStorage.ts` (SQLite-backed exchange archive) and
`CertificateManager.ts` (root CA handling and per-host leaf minting),
together with a spec-modelled single-flight leaf cache (the proxy engine
that owns the cache is not part of the sources under verification).
-/

namespace Trafexia

/-! ## Character/string helpers

SQLite compares `LIKE` patterns case-insensitively over ASCII; we model
the case folding with `Char.toLower` (ASCII-only, exactly as SQLite's
default LIKE). A percent sign in the pattern matches any character
sequence, an underscore any single character (no ESCAPE clause appears
in the source). `patLang` is the declarative pattern semantics;
`likeMatch` the executable matcher (structural recursion over a fuel
bounded by pattern length + text length, proven equivalent to
`patLang` below). -/

/-- Executable LIKE matcher. The fuel argument only bounds recursion
depth (every step consumes pattern or text); sufficiency is proven in
`likeMatchFuel_iff`. -/
def likeMatchFuel : Nat → List Char → List Char → Bool
  | 0, _, _ => false
  | fuel + 1, p, t =>
    match p with
    | [] => t.isEmpty
    | c :: p2 =>
      if c = '%' then
        likeMatchFuel fuel p2 t ||
          (match t with
           | [] => false
           | _ :: t2 => likeMatchFuel fuel (c :: p2) t2)
      else
        match t with
        | [] => false
        | d :: t2 =>
          (if c = '_' then true else d.toLower == c.toLower) && likeMatchFuel fuel p2 t2

def likeMatch (p t : List Char) : Bool := likeMatchFuel (p.length + t.length + 1) p t

/-- The embedding of a SQLite clause `col LIKE ?` whose parameter is
the string concatenation of a percent sign, `q` and a percent sign
(as the source builds with a template literal): full LIKE semantics,
wildcards inside `q` included, case-insensitive over ASCII. -/
def likeContains (hay q : String) : Bool :=
  likeMatch ('%' :: (q.toList ++ ['%'])) hay.toList

def parseDigitsAux : List Char → Nat → Option Nat
  | [], acc => some acc
  | c :: rest, acc =>
    if '0' ≤ c ∧ c ≤ '9' then parseDigitsAux rest (acc * 10 + (c.toNat - '0'.toNat))
    else none

def parseDigits : List Char → Option Nat
  | [] => none
  | l => parseDigitsAux l 0

/-- SQLite's numeric-affinity conversion of a bound TEXT value, as far
as this program exercises it: a well-formed optionally-signed decimal
integer literal converts to its value; any other text (in particular a
bucket name such as 2xx) stays TEXT. Real literals and
whitespace-padded numerals, which SQLite would also convert, do not
occur among this program's filter values and are not modelled. -/
def parseIntText (s : String) : Option Int :=
  match s.toList with
  | '+' :: rest => (parseDigits rest).map (fun n => (n : Int))
  | '-' :: rest => (parseDigits rest).map (fun n => -(n : Int))
  | l => (parseDigits l).map (fun n => (n : Int))

namespace TrafficStorage

/-- One row of the `requests` table (`shared/types` `CapturedRequest`
mapped onto the SQLite schema of `TrafficStorage.initialize`). 64-bit
JS numbers carrying timestamps, ids and statuses are modelled as `Int`;
JSON-serialised header maps, bodies and content types as strings. -/
structure Row where
  id : Int
  timestamp : Int
  method : String
  url : String
  host : String
  path : String
  status : Int
  requestHeaders : String
  requestBody : Option String
  responseHeaders : String
  responseBody : Option String
  contentType : String
  duration : Int
  size : Int
deriving DecidableEq, Repr

/-- A dynamically-typed SQL parameter as bound by better-sqlite3:
either an integer or a text value. Comparison of the INTEGER-affinity
`status` column with a non-numeric TEXT parameter never succeeds in
SQLite, which `sqlEqInt` reflects. -/
inductive SqlVal
  | int (n : Int)
  | text (s : String)
deriving DecidableEq, Repr

/-- The `FilterOptions` value accepted by `getRequests` /
`getRequestCount`. Absent fields are `none`; present-but-falsy
JavaScript values (empty string, empty array, zero) are modelled by
the guards inside each predicate below, mirroring the truthiness tests
of the source. -/
structure FilterOptions where
  searchQuery : Option String := none
  methods : Option (List String) := none
  statusCodes : Option (List SqlVal) := none
  hosts : Option (List String) := none
  contentTypes : Option (List String) := none
  dateRange : Option (Int × Int) := none
  limit : Option Nat := none
  offset : Option Nat := none
deriving Repr

/-- Clause added when `filter.searchQuery` is truthy:
`(url LIKE ? OR host LIKE ? OR path LIKE ?)` with pattern percent-q-percent. -/
def searchPredB (f : FilterOptions) (r : Row) : Bool :=
  match f.searchQuery with
  | none => true
  | some q =>
    if q = "" then true
    else likeContains r.url q || likeContains r.host q || likeContains r.path q

/-- Clause added when `filter.methods` is a non-empty array: `method IN (...)`. -/
def methodsPredB (f : FilterOptions) (r : Row) : Bool :=
  match f.methods with
  | none => true
  | some ms => if ms.isEmpty then true else ms.contains r.method

/-- SQLite equality of the INTEGER `status` column against one bound
parameter: the column's INTEGER affinity converts a numeric TEXT
parameter before comparing (so the text 204 equals status 204), while
non-numeric text such as a bucket name compares across storage classes
and never equals an integer. -/
def sqlEqInt (v : SqlVal) (n : Int) : Bool :=
  match v with
  | .int m => m == n
  | .text s =>
    match parseIntText s with
    | some m => m == n
    | none => false

/-- Clause added when `filter.statusCodes` is a non-empty array:
`status IN (...)`, literal equality against each bound parameter. -/
def statusPredB (f : FilterOptions) (r : Row) : Bool :=
  match f.statusCodes with
  | none => true
  | some vs => if vs.isEmpty then true else vs.any (fun v => sqlEqInt v r.status)

/-- Clause added when `filter.hosts` is a non-empty array: `host IN (...)`. -/
def hostsPredB (f : FilterOptions) (r : Row) : Bool :=
  match f.hosts with
  | none => true
  | some hs => if hs.isEmpty then true else hs.contains r.host

/-- Clause added when `filter.contentTypes` is a non-empty array:
`(content_type LIKE ? OR ...)` with patterns percent-ct-percent. -/
def contentTypesPredB (f : FilterOptions) (r : Row) : Bool :=
  match f.contentTypes with
  | none => true
  | some cts =>
    if cts.isEmpty then true else cts.any (fun ct => likeContains r.contentType ct)

/-- Clause added when `filter.dateRange` is present:
`timestamp >= start AND timestamp <= end`. -/
def datePredB (f : FilterOptions) (r : Row) : Bool :=
  match f.dateRange with
  | none => true
  | some d => decide (d.1 ≤ r.timestamp) && decide (r.timestamp ≤ d.2)

/-- Conjunction of all WHERE clauses built by `getRequests`. -/
def matchesB (f : FilterOptions) (r : Row) : Bool :=
  searchPredB f r && methodsPredB f r && statusPredB f r && hostsPredB f r &&
    contentTypesPredB f r && datePredB f r

/-- JavaScript truthiness of an optional number: `0` and `undefined`
are both falsy (`if (filter?.limit)` / `if (filter.offset)`). -/
def truthyNat : Option Nat → Option Nat
  | none => none
  | some 0 => none
  | some (n + 1) => some (n + 1)

/-- Descending-timestamp order used by `ORDER BY timestamp DESC`. -/
def tsGe (a b : Row) : Prop := b.timestamp ≤ a.timestamp

instance : DecidableRel tsGe :=
  fun a b => inferInstanceAs (Decidable (b.timestamp ≤ a.timestamp))

instance : IsTotal Row tsGe := ⟨fun a b => le_total b.timestamp a.timestamp⟩

instance : IsTrans Row tsGe := ⟨fun _ _ _ h1 h2 => le_trans h2 h1⟩

/-- Rows passing every WHERE clause, ordered by `timestamp DESC`. -/
def queryBase (f : FilterOptions) (rows : List Row) : List Row :=
  List.insertionSort tsGe (rows.filter (matchesB f))

/-- `TrafficStorage.getRequests`: filter conjunctively, order by
`timestamp DESC`, then apply `LIMIT`/`OFFSET` — the source appends
`LIMIT` only when `filter.limit` is truthy and `OFFSET` only when, in
addition, `filter.offset` is truthy. -/
def getRequests (f : FilterOptions) (rows : List Row) : List Row :=
  match truthyNat f.limit with
  | none => queryBase f rows
  | some n =>
    match truthyNat f.offset with
    | none => (queryBase f rows).take n
    | some o => ((queryBase f rows).drop o).take n

/-- `TrafficStorage.getRequestCount`: `SELECT COUNT(*)` with only the
`searchQuery` clause — the other filter fields are not consulted. -/
def getRequestCount (f : FilterOptions) (rows : List Row) : Nat :=
  (rows.filter (searchPredB f)).length

/-- The response fields written by `TrafficStorage.updateResponse`. -/
structure RespData where
  status : Int
  responseHeaders : String
  responseBody : Option String
  contentType : String
  duration : Int
  size : Int
deriving DecidableEq, Repr

/-- Effect of the UPDATE statement on one row whose id matched. -/
def applyResp (r : Row) (d : RespData) : Row :=
  { r with
    status := d.status
    responseHeaders := d.responseHeaders
    responseBody := d.responseBody
    contentType := d.contentType
    duration := d.duration
    size := d.size }

/-- `TrafficStorage.updateResponse`: `UPDATE requests SET ... WHERE id = ?`,
applied unconditionally to every row whose id equals the argument. -/
def updateResponse (rows : List Row) (i : Int) (d : RespData) : List Row :=
  rows.map (fun r => if r.id = i then applyResp r d else r)

/-- `TrafficStorage.deleteOlderThan(hours)`: computes
`cutoff = now - hours * 3600000` and deletes every row with
`timestamp < cutoff`; returns the kept rows together with
`result.changes`, the number of rows deleted. -/
def deleteOlderThan (hours : Int) (now : Int) (rows : List Row) : List Row × Nat :=
  let cutoff := now - hours * 3600000
  (rows.filter (fun r => !(decide (r.timestamp < cutoff))),
   (rows.filter (fun r => decide (r.timestamp < cutoff))).length)

/-- Byte-order comparison on strings for `ORDER BY` (BINARY collation). -/
def lexLeB : List Char → List Char → Bool
  | [], _ => true
  | _ :: _, [] => false
  | a :: as, b :: bs =>
    if a.val < b.val then true
    else if b.val < a.val then false
    else lexLeB as bs

def strLeB (a b : String) : Bool := lexLeB a.toList b.toList

/-- `TrafficStorage.getUniqueHosts`: `SELECT DISTINCT host FROM requests
ORDER BY host` — no row is excluded. -/
def getUniqueHosts (rows : List Row) : List String :=
  List.insertionSort (fun a b => strLeB a b = true) ((rows.map (fun r => r.host)).dedup)

/-- `TrafficStorage.getUniqueMethods`: `SELECT DISTINCT method FROM requests
ORDER BY method` — no row is excluded. -/
def getUniqueMethods (rows : List Row) : List String :=
  List.insertionSort (fun a b => strLeB a b = true) ((rows.map (fun r => r.method)).dedup)

/-- `TrafficStorage.getUniqueContentTypes`: `SELECT DISTINCT content_type
FROM requests WHERE content_type != '' ORDER BY content_type` — rows whose
`content_type` is the empty string are excluded before deduplication. -/
def getUniqueContentTypes (rows : List Row) : List String :=
  List.insertionSort (fun a b => strLeB a b = true)
    (((rows.filter (fun r => r.contentType != "")).map (fun r => r.contentType)).dedup)

/-- A completed sample exchange (status 200). -/
def sampleA : Row :=
  { id := 1, timestamp := 100, method := "GET", url := "http://a.test/x",
    host := "a.test", path := "/x", status := 200, requestHeaders := "{}",
    requestBody := none, responseHeaders := "{}", responseBody := some "hello",
    contentType := "text/html", duration := 5, size := 5 }

/-- A second sample exchange (status 204, empty content type). -/
def sampleB : Row :=
  { sampleA with
    id := 2
    timestamp := 200
    method := "POST"
    status := 204
    contentType := "" }

/-- Replacement response fields differing from those of `sampleA`. -/
def dNew : RespData :=
  { status := 404, responseHeaders := "{}", responseBody := some "bye",
    contentType := "text/plain", duration := 9, size := 3 }

end TrafficStorage

namespace CertificateManager

/-- Calendar instant, as produced by the JavaScript `Date` values in
`CertificateManager`: `new Date(year, month, day)` yields local
midnight on that date (`msOfDay = 0`). -/
structure Date where
  year : Int
  month : Nat
  day : Nat
  msOfDay : Nat
deriving DecidableEq, Repr

inductive SigAlg
  | sha256
deriving DecidableEq, Repr

/-- One `subjectAltName` entry: forge type 2 (DNS) or type 7 (IP). -/
inductive SanEntry
  | dns (value : String)
  | ip (value : String)
deriving DecidableEq, Repr

/-- The fields of a forge X.509 certificate that `CertificateManager`
sets: serial, validity, subject/issuer attribute lists, signature hash,
the extensions passed to `setExtensions`, and the SAN list. An
extension the source does not set on a given certificate is recorded
with its `false` default. -/
structure Certificate where
  serialNumber : String
  publicKeyBits : Nat
  notBefore : Date
  notAfter : Date
  subject : List (String × String)
  issuer : List (String × String)
  sigAlg : SigAlg
  basicConstraintsCA : Bool
  basicConstraintsCritical : Bool
  keyUsageDigitalSignature : Bool
  keyUsageKeyEncipherment : Bool
  keyUsageKeyCertSign : Bool
  keyUsageCRLSign : Bool
  extKeyUsageServerAuth : Bool
  subjectAltNames : List SanEntry
deriving DecidableEq, Repr

/-- `new Date(now.getFullYear() + 1, now.getMonth(), now.getDate())`:
the same calendar month and day one year later, at local midnight. -/
def oneYearLater (d : Date) : Date :=
  { year := d.year + 1, month := d.month, day := d.day, msOfDay := 0 }

/-- Splitting a character list at dots, as the regex alternation does. -/
def splitDots : List Char → List (List Char)
  | [] => [[]]
  | c :: t =>
    if c = '.' then [] :: splitDots t
    else
      match splitDots t with
      | [] => [[c]]
      | g :: gs => (c :: g) :: gs

def digitB (c : Char) : Bool := decide ('0' ≤ c) && decide (c ≤ '9')

/-- The source's IP test, the regex anchored start-to-end matching four
groups of one to three ASCII digits separated by dots. -/
def isDottedQuad (s : String) : Bool :=
  let parts := splitDots s.toList
  parts.length == 4 &&
    parts.all (fun p => decide (1 ≤ p.length) && decide (p.length ≤ 3) && p.all digitB)

/-- The mutable state of a `CertificateManager` instance: the loaded CA
private key (opaque handle) and CA certificate, both `null` until
`initialize` runs. -/
structure CMState where
  caKey : Option Nat
  caCert : Option Certificate
deriving Repr

/-- The `{ key, cert }` pair returned by `generateServerCert`: a fresh
RSA key of the stated modulus size plus the signed leaf certificate. -/
structure LeafResult where
  keyBits : Nat
  cert : Certificate
deriving DecidableEq, Repr

/-- `CertificateManager.generateServerCert(domain)`: throws when the CA
key or certificate is not loaded; otherwise generates an RSA-2048 pair
and returns a certificate with subject CN=domain, issuer equal to the
CA subject, one-year validity, the leaf extensions, and the SAN list
(DNS domain, DNS wildcard, plus IP when the regex matches). The random
serial is abstracted as the argument `serial`. -/
def generateServerCert (st : CMState) (domain : String) (now : Date)
    (serial : String) : Except String LeafResult :=
  match st.caKey, st.caCert with
  | some _, some ca =>
    Except.ok
      { keyBits := 2048
        cert :=
          { serialNumber := serial
            publicKeyBits := 2048
            notBefore := now
            notAfter := oneYearLater now
            subject := [("commonName", domain), ("organizationName", "Trafexia")]
            issuer := ca.subject
            sigAlg := SigAlg.sha256
            basicConstraintsCA := false
            basicConstraintsCritical := false
            keyUsageDigitalSignature := true
            keyUsageKeyEncipherment := true
            keyUsageKeyCertSign := false
            keyUsageCRLSign := false
            extKeyUsageServerAuth := true
            subjectAltNames :=
              [SanEntry.dns domain, SanEntry.dns ("*." ++ domain)] ++
                (if isDottedQuad domain then [SanEntry.ip domain] else []) } }
  | _, _ => Except.error "CA not initialized"

/-- `CertificateManager.getCertPem`: throws when `caCert` is null,
otherwise serialises the CA certificate (serialisation abstracted). -/
def getCertPem (toPem : Certificate → String) (st : CMState) : Except String String :=
  match st.caCert with
  | some c => Except.ok (toPem c)
  | none => Except.error "CA not initialized"

/-- `CertificateManager.getCertDer`: throws when `caCert` is null,
otherwise converts the CA certificate to DER bytes (abstracted). -/
def getCertDer (toDer : Certificate → List Nat) (st : CMState) : Except String (List Nat) :=
  match st.caCert with
  | some c => Except.ok (toDer c)
  | none => Except.error "CA not initialized"

def isOkE {ε α : Type} : Except ε α → Bool
  | Except.ok _ => true
  | Except.error _ => false

/-- Filesystem contents under the per-install directory: newest write
first, looked up by path. -/
abbrev Fs := List (String × String)

def caKeyPath : String := "certificates/rootCA.key"

def caCertPath : String := "certificates/rootCA.crt"

def hasFile (fs : Fs) (p : String) : Bool := (List.lookup p fs).isSome

def getFile (fs : Fs) (p : String) : String := (List.lookup p fs).getD ""

/-- A primitive filesystem operation, for distinguishing direct writes
from a write-to-temp-then-rename protocol. -/
inductive FsOp
  | write (p : String) (contents : String)
  | rename (src dst : String)
deriving DecidableEq, Repr

def applyOp (fs : Fs) : FsOp → Fs
  | .write p c => (p, c) :: fs
  | .rename src dst =>
    match List.lookup src fs with
    | some c => (dst, c) :: fs.filter (fun e => !(e.1 == src))
    | none => fs

def applyOps (fs : Fs) (ops : List FsOp) : Fs := ops.foldl applyOp fs

def isRenameOp : FsOp → Bool
  | .rename _ _ => true
  | .write _ _ => false

/-- `CertificateManager.generateCA` persists the new material with two
plain `fs.writeFileSync` calls: the key file first, then the cert file.
No temporary file and no rename is involved. -/
def generateCATrace (keyPem certPem : String) : List FsOp :=
  [FsOp.write caKeyPath keyPem, FsOp.write caCertPath certPem]

/-- `CertificateManager.caExists`: both files must be present. -/
def caExists (fs : Fs) : Bool := hasFile fs caKeyPath && hasFile fs caCertPath

structure InitResult where
  fs : Fs
  st : CMState
  generated : Bool
  trace : List FsOp
deriving Repr

/-- `CertificateManager.initialize`: load the CA from the two files when
both exist, else generate a fresh CA and write both files. PEM parsing
and the generated material are abstracted as arguments; `trace` records
the filesystem operations performed. -/
def initializeCM (parseKey : String → Nat) (parseCert : String → Certificate)
    (genKey : Nat) (genCert : Certificate) (genKeyPem genCertPem : String)
    (fs : Fs) : InitResult :=
  if caExists fs then
    { fs := fs
      st :=
        { caKey := some (parseKey (getFile fs caKeyPath))
          caCert := some (parseCert (getFile fs caCertPath)) }
      generated := false
      trace := [] }
  else
    let tr := generateCATrace genKeyPem genCertPem
    { fs := applyOps fs tr
      st := { caKey := some genKey, caCert := some genCert }
      generated := true
      trace := tr }

end CertificateManager

namespace LeafCache

/-- A minted leaf identity; distinct mints carry distinct handles. -/
structure Leaf where
  keyId : Nat
  certId : Nat
deriving DecidableEq, Repr

def mintLeaf (fresh : Nat) : Leaf := { keyId := 2 * fresh, certId := 2 * fresh + 1 }

/-- Modelled from the spec: the proxy engine owning the per-hostname
leaf-certificate cache is not among the sources under verification;
this state machine follows the spec's cache contract — mapping
`hostname -> LeafCert`, concurrent misses for one hostname coalesce
into a single in-flight mint whose result every waiter shares, a mint
fails (and touches nothing) when the CA is not loaded. Explicit
`purge()`/expiry eviction is outside the claims settled here and is
not modelled. -/
structure SFState where
  caLoaded : Bool
  cache : List (String × Leaf)
  pending : List (String × List Nat)
  fresh : Nat
  results : List (Nat × String × Leaf)
  errors : List Nat
deriving Repr

inductive SFEvent
  | req (requester : Nat) (hostname : String)
  | finish (hostname : String)
deriving DecidableEq, Repr

def setPending (h : String) (rs : List Nat) :
    List (String × List Nat) → List (String × List Nat) :=
  List.map (fun e => if e.1 = h then (h, rs) else e)

/-- Modelled from the spec: one scheduling step of the single-flight
cache. A request hits the cache, joins the in-flight mint for its
hostname, or starts one; a finish delivers the freshly minted leaf to
every waiter and stores it in the cache. With the CA not loaded a
request errors out and the state is otherwise untouched. -/
def sfStep (s : SFState) : SFEvent → SFState
  | .req r h =>
    if s.caLoaded then
      match List.lookup h s.cache with
      | some l => { s with results := (r, h, l) :: s.results }
      | none =>
        match List.lookup h s.pending with
        | some rs => { s with pending := setPending h (r :: rs) s.pending }
        | none => { s with pending := (h, [r]) :: s.pending }
    else { s with errors := r :: s.errors }
  | .finish h =>
    match List.lookup h s.pending with
    | some rs =>
      let l := mintLeaf s.fresh
      { s with
        cache := (h, l) :: s.cache
        pending := s.pending.filter (fun e => !(e.1 == h))
        fresh := s.fresh + 1
        results := rs.map (fun r => (r, h, l)) ++ s.results }
    | none => s

def sfInit (caLoaded : Bool) : SFState :=
  { caLoaded := caLoaded, cache := [], pending := [], fresh := 0, results := [], errors := [] }

def sfRun (caLoaded : Bool) (evs : List SFEvent) : SFState :=
  evs.foldl sfStep (sfInit caLoaded)

/-- Invariant tying delivered results to the cache: a pending hostname
is not yet cached, and every delivered `(requester, hostname, leaf)`
matches the cache entry for that hostname. -/
def SFInv (s : SFState) : Prop :=
  (∀ h rs, List.lookup h s.pending = some rs → List.lookup h s.cache = none) ∧
  (∀ r h l, (r, h, l) ∈ s.results → List.lookup h s.cache = some l)

end LeafCache

/-- A concrete calendar instant used by the witnesses. -/
def d0 : CertificateManager.Date := { year := 2026, month := 9, day := 11, msOfDay := 0 }

/-- A concrete self-signed CA certificate used by the witnesses, shaped
like the one `generateCA` produces. -/
def cW : CertificateManager.Certificate :=
  { serialNumber := "01"
    publicKeyBits := 2048
    notBefore := d0
    notAfter := { d0 with year := d0.year + 10 }
    subject :=
      [("commonName", "Trafexia Root CA"), ("countryName", "VN"),
        ("organizationName", "Trafexia"), ("organizationalUnitName", "Development")]
    issuer :=
      [("commonName", "Trafexia Root CA"), ("countryName", "VN"),
        ("organizationName", "Trafexia"), ("organizationalUnitName", "Development")]
    sigAlg := CertificateManager.SigAlg.sha256
    basicConstraintsCA := true
    basicConstraintsCritical := true
    keyUsageDigitalSignature := true
    keyUsageKeyEncipherment := false
    keyUsageKeyCertSign := true
    keyUsageCRLSign := true
    extKeyUsageServerAuth := false
    subjectAltNames := [] }

/-- A manager state with the CA loaded, for the witnesses. -/
def stW : CertificateManager.CMState := { caKey := some 1, caCert := some cW }

/-- A concrete single-flight schedule: two overlapping requests for one
hostname, then the mint completes. -/
def evsW : List LeafCache.SFEvent :=
  [LeafCache.SFEvent.req 1 "a.test", LeafCache.SFEvent.req 2 "a.test",
    LeafCache.SFEvent.finish "a.test"]

end Trafexia


namespace Trafexia

namespace TrafficStorage

theorem filter_length_split (l : List Row) (p : Row → Bool) :
    (l.filter p).length + (l.filter (fun x => !(p x))).length = l.length := by
  induction l with
  | nil => rfl
  | cons a t ih =>
    by_cases h : p a = true <;> simp [List.filter, h] <;> omega

end TrafficStorage

end Trafexia

namespace Trafexia

theorem lookup_cons {β : Type} (a k : String) (v : β) (t : List (String × β)) :
    List.lookup a ((k, v) :: t) = if a = k then some v else List.lookup a t := by
  by_cases h : a = k
  · simp [List.lookup, h]
  · have hb : (a == k) = false := beq_eq_false_iff_ne.mpr h
    simp [List.lookup, hb, h]

theorem lookup_filter_key {β : Type} (h h2 : String) (p : List (String × β)) :
    List.lookup h2 (p.filter (fun e => !(e.1 == h))) =
      if h2 = h then none else List.lookup h2 p := by
  induction p with
  | nil => simp [List.lookup]
  | cons a t ih =>
    obtain ⟨k, v⟩ := a
    by_cases hk : k = h
    · have hb : (k == h) = true := by simp [hk]
      simp only [List.filter, hb, Bool.not_true]
      rw [ih]
      by_cases h2h : h2 = h
      · rw [if_pos h2h, if_pos h2h]
      · have h2k : ¬h2 = k := fun he => h2h (he.trans hk)
        rw [if_neg h2h, if_neg h2h, lookup_cons, if_neg h2k]
    · have hb : (k == h) = false := beq_eq_false_iff_ne.mpr hk
      simp only [List.filter, hb, Bool.not_false]
      rw [lookup_cons, ih, lookup_cons]
      by_cases h2k : h2 = k
      · have h2h : ¬h2 = h := fun he => hk (h2k.symm.trans he)
        rw [if_pos h2k, if_neg h2h, if_pos h2k]
      · rw [if_neg h2k]
        by_cases h2h : h2 = h
        · rw [if_pos h2h, if_pos h2h]
        · rw [if_neg h2h, if_neg h2h, if_neg h2k]

namespace LeafCache

theorem lookup_setPending {h h2 : String} {rs : List Nat} {p : List (String × List Nat)}
    {rs2 : List Nat} (hl : List.lookup h2 (setPending h rs p) = some rs2) :
    ∃ rs0, List.lookup h2 p = some rs0 := by
  induction p with
  | nil => simp [setPending, List.lookup] at hl
  | cons a t ih =>
    obtain ⟨k, v⟩ := a
    simp only [setPending, List.map] at hl
    rw [lookup_cons]
    by_cases h2k : h2 = k
    · exact ⟨v, by rw [if_pos h2k]⟩
    · rw [if_neg h2k]
      apply ih
      by_cases hk : k = h
      · rw [if_pos hk, lookup_cons] at hl
        have h2h : ¬h2 = h := fun he => h2k (he.trans hk.symm)
        rw [if_neg h2h] at hl
        exact hl
      · rw [if_neg hk, lookup_cons, if_neg h2k] at hl
        exact hl

theorem sfStep_inv (s : SFState) (e : SFEvent) (hinv : SFInv s) : SFInv (sfStep s e) := by
  obtain ⟨inv1, inv2⟩ := hinv
  cases e with
  | req r h =>
    by_cases hcl : s.caLoaded
    · cases hc : List.lookup h s.cache with
      | some l =>
        have hstep : sfStep s (SFEvent.req r h) =
            { s with results := (r, h, l) :: s.results } := by
          simp [sfStep, hcl, hc]
        rw [hstep]
        constructor
        · intro h2 rs2 hpl
          exact inv1 h2 rs2 hpl
        · intro r2 h2 l2 hmem
          have hm2 : (r2, h2, l2) ∈ (r, h, l) :: s.results := hmem
          rcases List.mem_cons.mp hm2 with heq | hold
          · cases heq
            exact hc
          · exact inv2 r2 h2 l2 hold
      | none =>
        cases hp : List.lookup h s.pending with
        | some rs =>
          have hstep : sfStep s (SFEvent.req r h) =
              { s with pending := setPending h (r :: rs) s.pending } := by
            simp [sfStep, hcl, hc, hp]
          rw [hstep]
          constructor
          · intro h2 rs2 hpl
            have hpl2 : List.lookup h2 (setPending h (r :: rs) s.pending) = some rs2 := hpl
            obtain ⟨rs0, hrs0⟩ := lookup_setPending hpl2
            exact inv1 h2 rs0 hrs0
          · intro r2 h2 l2 hmem
            exact inv2 r2 h2 l2 hmem
        | none =>
          have hstep : sfStep s (SFEvent.req r h) =
              { s with pending := (h, [r]) :: s.pending } := by
            simp [sfStep, hcl, hc, hp]
          rw [hstep]
          constructor
          · intro h2 rs2 hpl
            have hpl2 : List.lookup h2 ((h, [r]) :: s.pending) = some rs2 := hpl
            rw [lookup_cons] at hpl2
            by_cases h2h : h2 = h
            · exact h2h ▸ hc
            · rw [if_neg h2h] at hpl2
              exact inv1 h2 rs2 hpl2
          · intro r2 h2 l2 hmem
            exact inv2 r2 h2 l2 hmem
    · have hstep : sfStep s (SFEvent.req r h) = { s with errors := r :: s.errors } := by
        simp [sfStep, hcl]
      rw [hstep]
      exact ⟨fun h2 rs2 hpl => inv1 h2 rs2 hpl, fun r2 h2 l2 hm => inv2 r2 h2 l2 hm⟩
  | finish h =>
    cases hp : List.lookup h s.pending with
    | some rs =>
      have hcache : List.lookup h s.cache = none := inv1 h rs hp
      have hstep : sfStep s (SFEvent.finish h) =
          { s with
            cache := (h, mintLeaf s.fresh) :: s.cache
            pending := s.pending.filter (fun e => !(e.1 == h))
            fresh := s.fresh + 1
            results := rs.map (fun r => (r, h, mintLeaf s.fresh)) ++ s.results } := by
        simp [sfStep, hp]
      rw [hstep]
      constructor
      · intro h2 rs2 hpl
        have hpl2 : List.lookup h2 (s.pending.filter (fun e => !(e.1 == h))) = some rs2 := hpl
        rw [lookup_filter_key] at hpl2
        show List.lookup h2 ((h, mintLeaf s.fresh) :: s.cache) = none
        by_cases h2h : h2 = h
        · rw [if_pos h2h] at hpl2
          cases hpl2
        · rw [if_neg h2h] at hpl2
          rw [lookup_cons, if_neg h2h]
          exact inv1 h2 rs2 hpl2
      · intro r2 h2 l2 hmem
        have hm2 : (r2, h2, l2) ∈ rs.map (fun r => (r, h, mintLeaf s.fresh)) ++ s.results := hmem
        show List.lookup h2 ((h, mintLeaf s.fresh) :: s.cache) = some l2
        rcases List.mem_append.mp hm2 with hnew | hold
        · obtain ⟨r0, hr0, heq⟩ := List.mem_map.mp hnew
          simp only [Prod.mk.injEq] at heq
          obtain ⟨-, he2, he3⟩ := heq
          rw [lookup_cons, if_pos he2.symm, he3]
        · have hc2 := inv2 r2 h2 l2 hold
          by_cases h2h : h2 = h
          · rw [h2h, hcache] at hc2
            cases hc2
          · rw [lookup_cons, if_neg h2h]
            exact hc2
    | none =>
      have hstep : sfStep s (SFEvent.finish h) = s := by
        simp [sfStep, hp]
      rw [hstep]
      exact ⟨inv1, inv2⟩

theorem foldl_inv (evs : List SFEvent) (s : SFState) (hinv : SFInv s) :
    SFInv (evs.foldl sfStep s) := by
  induction evs generalizing s with
  | nil => exact hinv
  | cons e t ih => exact ih (sfStep s e) (sfStep_inv s e hinv)

theorem sfRun_inv (b : Bool) (evs : List SFEvent) : SFInv (sfRun b evs) := by
  refine foldl_inv evs (sfInit b) ⟨?_, ?_⟩
  · intro h rs hp
    simp [sfInit, List.lookup] at hp
  · intro r h l hmem
    simp [sfInit] at hmem

theorem foldl_not_loaded (evs : List SFEvent) (s : SFState) (hcl : s.caLoaded = false)
    (hp : s.pending = []) (hc : s.cache = []) :
    (evs.foldl sfStep s).cache = [] ∧ (evs.foldl sfStep s).caLoaded = false ∧
      (evs.foldl sfStep s).pending = [] := by
  induction evs generalizing s with
  | nil => exact ⟨hc, hcl, hp⟩
  | cons e t ih =>
    rw [List.foldl_cons]
    cases e with
    | req r h =>
      apply ih
      · simp [sfStep, hcl]
      · simp [sfStep, hcl, hp]
      · simp [sfStep, hcl, hc]
    | finish h =>
      have hst : sfStep s (SFEvent.finish h) = s := by
        simp [sfStep, hp, List.lookup]
      rw [hst]
      exact ih s hcl hp hc

end LeafCache

end Trafexia

namespace Trafexia

open TrafficStorage LeafCache

/-- C1: single-flight minting per hostname — in every schedule of the
spec-modelled leaf cache (requests hitting the cache, joining the
in-flight mint, or starting one; no intervening eviction, which the
model has none of), any two requesters that obtained a leaf for the
same hostname obtained the identical (key, cert) pair, because a
single mint per hostname populates the cache and every delivery comes
from it. -/
theorem C1_single_flight (b : Bool) (evs : List SFEvent) (r1 r2 : Nat) (hn : String)
    (l1 l2 : Leaf) (h1 : (r1, hn, l1) ∈ (sfRun b evs).results)
    (h2 : (r2, hn, l2) ∈ (sfRun b evs).results) : l1 = l2 := by
  have inv := sfRun_inv b evs
  have e1 := inv.2 r1 hn l1 h1
  have e2 := inv.2 r2 hn l2 h2
  rw [e1] at e2
  exact Option.some.inj e2

theorem C1_witness :
    (1, "a.test", mintLeaf 0) ∈ (sfRun true evsW).results ∧
    (2, "a.test", mintLeaf 0) ∈ (sfRun true evsW).results ∧
    mintLeaf 0 = mintLeaf 0 :=
  ⟨by decide, by decide,
    C1_single_flight true evsW 1 2 "a.test" (mintLeaf 0) (mintLeaf 0) (by decide) (by decide)⟩

/-- C2 counterexample: `sampleA` is already completed (status 200,
nonzero), yet a second `complete` call with different response fields
changes the stored row — refuting the claimed idempotent no-op. -/
theorem C2_counterexample :
    sampleA.status = 200 ∧ updateResponse [sampleA] 1 dNew ≠ [sampleA] := by
  refine ⟨rfl, ?_⟩
  decide

/-- C2 (amended): `complete(id, fields)` overwrites the response fields
of the row with the given id on every call — last write wins — rather
than being a no-op once completed: a second completion replaces the
result of the first, request fields and rows with other ids are
untouched, and re-applying identical data is the only way a repeat
call leaves the row unchanged. -/
theorem C2_update_last_wins (rows : List Row) (i : Int) (d e : RespData) :
    updateResponse (updateResponse rows i d) i e = updateResponse rows i e ∧
    (∀ r ∈ updateResponse rows i d, ∃ r0 ∈ rows,
      r0.id = r.id ∧ r.method = r0.method ∧ r.url = r0.url ∧ r.host = r0.host ∧
        r.path = r0.path ∧ r.timestamp = r0.timestamp ∧
        r.requestHeaders = r0.requestHeaders ∧ r.requestBody = r0.requestBody ∧
        (r0.id ≠ i → r = r0) ∧
        (r0.id = i → r.status = d.status ∧ r.responseHeaders = d.responseHeaders ∧
          r.responseBody = d.responseBody ∧ r.contentType = d.contentType ∧
          r.duration = d.duration ∧ r.size = d.size)) := by
  constructor
  · unfold updateResponse
    rw [List.map_map]
    apply List.map_congr_left
    intro r _
    by_cases h : r.id = i
    · simp [Function.comp, applyResp, h]
    · simp [Function.comp, h]
  · intro r hr
    obtain ⟨r0, hr0, heq⟩ := List.mem_map.mp hr
    refine ⟨r0, hr0, ?_⟩
    by_cases h : r0.id = i
    · rw [if_pos h] at heq
      subst heq
      exact ⟨rfl, rfl, rfl, rfl, rfl, rfl, rfl, rfl, fun hne => absurd h hne,
        fun _ => ⟨rfl, rfl, rfl, rfl, rfl, rfl⟩⟩
    · rw [if_neg h] at heq
      subst heq
      exact ⟨rfl, rfl, rfl, rfl, rfl, rfl, rfl, rfl, fun _ => rfl, fun hi => absurd hi h⟩

theorem C2_witness :
    updateResponse (updateResponse [sampleA] 1 dNew) 1 dNew = updateResponse [sampleA] 1 dNew :=
  (C2_update_last_wins [sampleA] 1 dNew dNew).1

/-- C4 counterexample: with one GET and one POST row stored and a
filter selecting only POST, `query` returns one row but `count`
returns 2 — `getRequestCount` consults none of the predicates except
the free-text substring. -/
theorem C4_counterexample :
    (getRequests { methods := some ["POST"] } [sampleA, sampleB]).length = 1 ∧
    getRequestCount { methods := some ["POST"] } [sampleA, sampleB] = 2 := by
  refine ⟨?_, ?_⟩ <;> decide

/-- C4 (amended): `count(filter)` honours only the free-text substring
predicate; it equals the number of rows `query(filter)` returns
exactly when the filter carries no method, status, host, content-type
or date predicate and no limit. -/
theorem C4_count_only_search (f : FilterOptions) (rows : List Row)
    (hm : f.methods = none) (hs : f.statusCodes = none) (hh : f.hosts = none)
    (hc : f.contentTypes = none) (hd : f.dateRange = none) (hl : f.limit = none) :
    getRequestCount f rows = (getRequests f rows).length := by
  have hfe : rows.filter (matchesB f) = rows.filter (searchPredB f) := by
    apply List.filter_congr
    intro x _
    simp [matchesB, methodsPredB, statusPredB, hostsPredB, contentTypesPredB, datePredB,
      hm, hs, hh, hc, hd]
  have hgr : getRequests f rows = queryBase f rows := by
    unfold getRequests
    rw [hl]
    rfl
  rw [hgr]
  unfold getRequestCount queryBase
  rw [List.length_insertionSort, hfe]

theorem C4_witness :
    getRequestCount { searchQuery := some "a.test" } [sampleA, sampleB] =
      (getRequests { searchQuery := some "a.test" } [sampleA, sampleB]).length :=
  C4_count_only_search { searchQuery := some "a.test" } [sampleA, sampleB]
    rfl rfl rfl rfl rfl rfl

end Trafexia

namespace Trafexia

open TrafficStorage CertificateManager LeafCache

/-- C5 counterexample: the generation path persists the CA with two
direct writes and no rename; after the first operation alone the key
file exists while the cert file does not — an observable filesystem
state holding exactly one of the two files, refuting the claimed
write-to-temp-then-rename atomicity. -/
theorem C5_counterexample :
    (∀ op ∈ generateCATrace "KEYPEM" "CERTPEM", isRenameOp op = false) ∧
    hasFile (applyOps [] ((generateCATrace "KEYPEM" "CERTPEM").take 1)) caKeyPath = true ∧
    hasFile (applyOps [] ((generateCATrace "KEYPEM" "CERTPEM").take 1)) caCertPath = false := by
  refine ⟨?_, ?_, ?_⟩ <;> decide

/-- C5 (amended): initialization generates a fresh RootCA iff at least
one of rootCA.key / rootCA.crt is missing; when both are present
nothing is written and the state is loaded from the files unchanged;
when it generates, both files are present afterwards — but they are
written by two direct writeFileSync calls (the trace
`generateCATrace`), not atomically via temp + rename. -/
theorem C5_load_or_generate (parseKey : String → Nat) (parseCert : String → Certificate)
    (genKey : Nat) (genCert : Certificate) (kp cp : String) (fs : Fs) :
    ((initializeCM parseKey parseCert genKey genCert kp cp fs).generated = true ↔
      ¬(hasFile fs caKeyPath = true ∧ hasFile fs caCertPath = true)) ∧
    ((initializeCM parseKey parseCert genKey genCert kp cp fs).generated = false →
      (initializeCM parseKey parseCert genKey genCert kp cp fs).fs = fs) ∧
    ((initializeCM parseKey parseCert genKey genCert kp cp fs).generated = true →
      (initializeCM parseKey parseCert genKey genCert kp cp fs).trace = generateCATrace kp cp ∧
        hasFile (initializeCM parseKey parseCert genKey genCert kp cp fs).fs caKeyPath = true ∧
        hasFile (initializeCM parseKey parseCert genKey genCert kp cp fs).fs caCertPath = true) := by
  by_cases hex : caExists fs = true
  · have h2 := hex
    rw [caExists, Bool.and_eq_true] at h2
    refine ⟨?_, ?_, ?_⟩
    · simp [initializeCM, hex, h2.1, h2.2]
    · intro _
      simp [initializeCM, hex]
    · intro hgen
      simp [initializeCM, hex] at hgen
  · have hex2 : caExists fs = false := by
      revert hex
      cases caExists fs <;> simp
    have h2 : ¬(hasFile fs caKeyPath = true ∧ hasFile fs caCertPath = true) := by
      rw [caExists, Bool.and_eq_true] at hex
      exact hex
    have hfs : (initializeCM parseKey parseCert genKey genCert kp cp fs).fs =
        (caCertPath, cp) :: (caKeyPath, kp) :: fs := by
      simp [initializeCM, hex2, applyOps, applyOp, generateCATrace, List.foldl]
    refine ⟨?_, ?_, ?_⟩
    · simp [initializeCM, hex2, h2]
    · intro hg
      simp [initializeCM, hex2] at hg
    · intro _
      refine ⟨?_, ?_, ?_⟩
      · simp [initializeCM, hex2]
      · rw [hfs]
        unfold hasFile
        rw [lookup_cons, if_neg (by decide : ¬(caKeyPath = caCertPath)), lookup_cons,
          if_pos rfl]
        rfl
      · rw [hfs]
        unfold hasFile
        rw [lookup_cons, if_pos rfl]
        rfl

theorem C5_witness :
    (initializeCM (fun _ => 0) (fun _ => cW) 0 cW "K" "C" []).generated = true ↔
      ¬(hasFile [] caKeyPath = true ∧ hasFile [] caCertPath = true) :=
  (C5_load_or_generate (fun _ => 0) (fun _ => cW) 0 cW "K" "C" []).1

/-- C6: the leaf contract — with the CA loaded, `generateServerCert`
returns an RSA-2048 key and a certificate whose issuer equals the CA
subject, signed with SHA-256, valid from `now` until the same calendar
date one year later, carrying basicConstraints cA=false, keyUsage
digitalSignature+keyEncipherment and extKeyUsage serverAuth, and a SAN
list containing DNS:domain and DNS:*.domain, with IP:domain present
exactly when the domain matches the source's dotted-quad regex
(four groups of one to three digits). -/
theorem C6_leaf_contract (st : CMState) (domain : String) (now : Date) (serial : String)
    (k : Nat) (ca : Certificate) (hk : st.caKey = some k) (hc : st.caCert = some ca) :
    ∃ res, generateServerCert st domain now serial = Except.ok res ∧
      res.cert.issuer = ca.subject ∧
      res.cert.sigAlg = SigAlg.sha256 ∧
      res.keyBits = 2048 ∧
      res.cert.publicKeyBits = 2048 ∧
      res.cert.notBefore = now ∧
      res.cert.notAfter.year = now.year + 1 ∧
      res.cert.notAfter.month = now.month ∧
      res.cert.notAfter.day = now.day ∧
      res.cert.basicConstraintsCA = false ∧
      res.cert.keyUsageDigitalSignature = true ∧
      res.cert.keyUsageKeyEncipherment = true ∧
      res.cert.extKeyUsageServerAuth = true ∧
      SanEntry.dns domain ∈ res.cert.subjectAltNames ∧
      SanEntry.dns ("*." ++ domain) ∈ res.cert.subjectAltNames ∧
      (SanEntry.ip domain ∈ res.cert.subjectAltNames ↔ isDottedQuad domain = true) := by
  unfold generateServerCert
  rw [hk, hc]
  refine ⟨_, rfl, rfl, rfl, rfl, rfl, rfl, rfl, rfl, rfl, rfl, rfl, rfl, rfl, ?_, ?_, ?_⟩
  · simp
  · simp
  · by_cases hdq : isDottedQuad domain = true
    · simp [hdq]
    · have hdq2 : isDottedQuad domain = false := by
        revert hdq
        cases isDottedQuad domain <;> simp
      simp [hdq2]

theorem C6_witness : isOkE (generateServerCert stW "192.168.0.1" d0 "03") = true := by
  obtain ⟨res, hres, -⟩ := C6_leaf_contract stW "192.168.0.1" d0 "03" 1 cW rfl rfl
  rw [hres]
  rfl

/-- C8 counterexample: `sampleA` (timestamp 100) is far older than one
hour at now = 36000000 ms; calling the sweep with 3600000 — the
claim's age-in-milliseconds for one hour — deletes nothing and
returns 0, because the source multiplies the argument by 3600000
(it is an hour count), making the cutoff negative. -/
theorem C8_counterexample :
    sampleA.timestamp < 36000000 - 3600000 ∧
    (deleteOlderThan 3600000 36000000 [sampleA]).2 = 0 ∧
    (deleteOlderThan 3600000 36000000 [sampleA]).1 = [sampleA] := by
  refine ⟨by decide, by decide, by decide⟩

/-- C8 (amended): the sweep takes its age H in hours, not
milliseconds: with cutoff `now - H * 3600000` it removes exactly the
rows with `timestamp < cutoff` — afterwards no such row remains, every
row at or above the cutoff survives — and its return value equals the
number of rows removed. -/
theorem C8_sweep_hours (hours now : Int) (rows : List Row) :
    (∀ r ∈ (deleteOlderThan hours now rows).1, ¬r.timestamp < now - hours * 3600000) ∧
    (∀ r ∈ rows, ¬r.timestamp < now - hours * 3600000 →
      r ∈ (deleteOlderThan hours now rows).1) ∧
    (deleteOlderThan hours now rows).2 + (deleteOlderThan hours now rows).1.length =
      rows.length := by
  refine ⟨?_, ?_, ?_⟩
  · intro r hr
    have hpr := (List.mem_filter.mp hr).2
    simpa using hpr
  · intro r hr hts
    apply List.mem_filter.mpr
    exact ⟨hr, by simpa using hts⟩
  · exact filter_length_split rows (fun r => decide (r.timestamp < now - hours * 3600000))

theorem C8_witness :
    (deleteOlderThan 1 7200000 [sampleA]).2 + (deleteOlderThan 1 7200000 [sampleA]).1.length =
      [sampleA].length :=
  (C8_sweep_hours 1 7200000 [sampleA]).2.2

/-- C9: `generateServerCert`, `getCertPem` and `getCertDer` fail
exactly when the CA is not loaded (the manager sets key and cert
together — both null initially, both assigned by loadCA/generateCA —
whence the in-sync hypothesis), and a mint attempted while the CA is
not loaded leaves the spec-modelled leaf cache empty: the cache is
never partially populated by failed mints. -/
theorem C9_error_iff_not_loaded (st : CMState)
    (hsync : st.caKey = none ↔ st.caCert = none)
    (toPem : Certificate → String) (toDer : Certificate → List Nat)
    (domain : String) (now : Date) (serial : String) :
    (isOkE (generateServerCert st domain now serial) = true ↔ st.caCert.isSome = true) ∧
    (isOkE (getCertPem toPem st) = true ↔ st.caCert.isSome = true) ∧
    (isOkE (getCertDer toDer st) = true ↔ st.caCert.isSome = true) ∧
    (∀ evs : List SFEvent, (sfRun false evs).cache = []) := by
  cases hck : st.caKey with
  | none =>
    have hcc : st.caCert = none := hsync.mp hck
    refine ⟨?_, ?_, ?_, fun evs => (foldl_not_loaded evs (sfInit false) rfl rfl rfl).1⟩
    · unfold generateServerCert
      rw [hck, hcc]
      simp [isOkE, hcc]
    · unfold getCertPem
      rw [hcc]
      simp [isOkE, hcc]
    · unfold getCertDer
      rw [hcc]
      simp [isOkE, hcc]
  | some k =>
    have hccex : ∃ c, st.caCert = some c := by
      cases hcc2 : st.caCert with
      | none => exact absurd (hsync.mpr hcc2) (by simp [hck])
      | some c => exact ⟨c, rfl⟩
    obtain ⟨c, hcc⟩ := hccex
    refine ⟨?_, ?_, ?_, fun evs => (foldl_not_loaded evs (sfInit false) rfl rfl rfl).1⟩
    · unfold generateServerCert
      rw [hck, hcc]
      simp [isOkE, hcc]
    · unfold getCertPem
      rw [hcc]
      simp [isOkE, hcc]
    · unfold getCertDer
      rw [hcc]
      simp [isOkE, hcc]

theorem C9_witness :
    isOkE (getCertPem (fun _ => "PEM") stW) = true ↔ stW.caCert.isSome = true :=
  (C9_error_iff_not_loaded stW (by simp [stW]) (fun _ => "PEM") (fun _ => []) "a.test" d0
    "04").2.1

theorem mem_getUniqueContentTypes (rows : List Row) (ct : String) :
    ct ∈ getUniqueContentTypes rows ↔ ct ≠ "" ∧ ∃ r ∈ rows, r.contentType = ct := by
  unfold getUniqueContentTypes
  simp only [List.mem_insertionSort, List.mem_dedup, List.mem_map, List.mem_filter,
    bne_iff_ne, ne_eq]
  constructor
  · rintro ⟨r, ⟨hr, hne⟩, he⟩
    exact ⟨by rw [← he]; exact hne, r, hr, he⟩
  · rintro ⟨hne, r, hr, he⟩
    exact ⟨r, ⟨hr, by rw [he]; exact hne⟩, he⟩

/-- C10: `distinct_content_types` never returns the empty string —
rows whose `content_type` is empty (for example rows inserted open and
never completed) are excluded — while `distinct_hosts` and
`distinct_methods` impose no such exclusion: every value of the
respective column, empty or not, appears in their output. -/
theorem C10_distinct_content_types (rows : List Row) :
    "" ∉ getUniqueContentTypes rows ∧
    (∀ ct, ct ∈ getUniqueContentTypes rows ↔ ct ≠ "" ∧ ∃ r ∈ rows, r.contentType = ct) ∧
    (∀ hv, hv ∈ getUniqueHosts rows ↔ ∃ r ∈ rows, r.host = hv) ∧
    (∀ m, m ∈ getUniqueMethods rows ↔ ∃ r ∈ rows, r.method = m) := by
  refine ⟨?_, fun ct => mem_getUniqueContentTypes rows ct, ?_, ?_⟩
  · intro hmem
    exact ((mem_getUniqueContentTypes rows "").mp hmem).1 rfl
  · intro hv
    unfold getUniqueHosts
    simp
  · intro m
    unfold getUniqueMethods
    simp

theorem C10_witness : "" ∉ getUniqueContentTypes [sampleA, sampleB] :=
  (C10_distinct_content_types [sampleA, sampleB]).1

end Trafexia
